import Mathlib

/-!
Verification of the note-editing and attachment-management core of a
Supabase-backed notes client. The definitions below are a shallow embedding
of `src/project/src/components/FileUpload.tsx` and the note page
(`NotePage`) found in `src/project/src/pages/Dashboard.tsx`:

* `splitChar` models JavaScript `String.prototype.split` with a one-character
  separator; `lastSegment` models `url.split('/').pop()` and `fileExt`
  models `file.name.split('.').pop()`.
* `typeAllowed`, `dropzoneAccept`, `validFiles` model the react-dropzone
  configuration (`ALLOWED_FILE_TYPES`, `maxSize`) and the in-`onDrop` size
  filter.
* `uploadBatch`, `onDropRun` model the concurrent upload orchestration of
  `onDrop` (each per-file job settles to a public URL or, on a caught
  failure, to `null`), with the remote outcome of each job supplied as a
  parameter.
* `handleRemoveFile` models `FileUpload.handleRemoveFile` composed with the
  `onRemoveFile` callback of the note page; the supabase storage `remove`
  call can succeed, fail by returning an error field (the result the code
  does not inspect), or throw (the case the code catches).
* `Store`, `loadNote`, `noteData`, `handleSave`, `handleDelete` model the
  note page's persistence interactions, with remote failure injected as
  boolean parameters and the set of remote calls issued recorded in the
  result.
-/

namespace NotesApp

/-- Auxiliary for `splitChar`: returns the first separator-free piece and
the list of remaining pieces. -/
def splitCharAux (sep : Char) : List Char → List Char × List (List Char)
  | [] => ([], [])
  | c :: cs =>
    if c = sep then ([], (splitCharAux sep cs).1 :: (splitCharAux sep cs).2)
    else (c :: (splitCharAux sep cs).1, (splitCharAux sep cs).2)

/-- JavaScript `s.split(sep)` for a single-character separator, over the
character list of the string. Always returns a non-empty list. -/
def splitChar (sep : Char) (s : List Char) : List (List Char) :=
  (splitCharAux sep s).1 :: (splitCharAux sep s).2

theorem splitChar_ne_nil (sep : Char) (s : List Char) : splitChar sep s ≠ [] := by
  simp [splitChar]

/-- No piece produced by `splitCharAux` contains the separator. -/
theorem splitCharAux_not_mem (sep : Char) (s : List Char) :
    sep ∉ (splitCharAux sep s).1 ∧ ∀ p ∈ (splitCharAux sep s).2, sep ∉ p := by
  induction s with
  | nil => simp [splitCharAux]
  | cons c cs ih =>
    simp only [splitCharAux]
    by_cases h : c = sep
    · simp only [h, if_pos rfl]
      refine ⟨by simp, ?_⟩
      intro p hp
      rcases List.mem_cons.mp hp with hp | hp
      · exact hp ▸ ih.1
      · exact ih.2 p hp
    · simp only [if_neg h]
      refine ⟨?_, ih.2⟩
      intro hmem
      rcases List.mem_cons.mp hmem with hc | hc
      · exact h hc.symm
      · exact ih.1 hc

/-- No piece produced by `splitChar` contains the separator. -/
theorem splitChar_not_mem (sep : Char) (s : List Char) :
    ∀ p ∈ splitChar sep s, sep ∉ p := by
  intro p hp
  rcases List.mem_cons.mp hp with hp | hp
  · exact hp ▸ (splitCharAux_not_mem sep s).1
  · exact (splitCharAux_not_mem sep s).2 p hp

/-- Every character of a `splitCharAux` piece is a character of the input. -/
theorem splitCharAux_subset (sep : Char) (s : List Char) :
    (∀ c ∈ (splitCharAux sep s).1, c ∈ s) ∧
      ∀ p ∈ (splitCharAux sep s).2, ∀ c ∈ p, c ∈ s := by
  induction s with
  | nil => simp [splitCharAux]
  | cons a as ih =>
    simp only [splitCharAux]
    by_cases h : a = sep
    · simp only [if_pos h]
      refine ⟨by simp, ?_⟩
      intro p hp c hc
      rcases List.mem_cons.mp hp with hp | hp
      · exact List.mem_cons_of_mem a (ih.1 c (hp ▸ hc))
      · exact List.mem_cons_of_mem a (ih.2 p hp c hc)
    · simp only [if_neg h]
      refine ⟨?_, fun p hp c hc => List.mem_cons_of_mem a (ih.2 p hp c hc)⟩
      intro c hc
      rcases List.mem_cons.mp hc with hc | hc
      · exact hc ▸ List.mem_cons_self a as
      · exact List.mem_cons_of_mem a (ih.1 c hc)

/-- Every character of a `splitChar` piece is a character of the input. -/
theorem splitChar_subset (sep : Char) (s : List Char) :
    ∀ p ∈ splitChar sep s, ∀ c ∈ p, c ∈ s := by
  intro p hp
  rcases List.mem_cons.mp hp with hp | hp
  · exact hp ▸ (splitCharAux_subset sep s).1
  · exact (splitCharAux_subset sep s).2 p hp

theorem splitCharAux_append (sep : Char) (xs ys : List Char) :
    splitCharAux sep (xs ++ sep :: ys) =
      ((splitCharAux sep xs).1, (splitCharAux sep xs).2 ++ splitChar sep ys) := by
  induction xs with
  | nil => simp [splitCharAux, splitChar]
  | cons x xs ih =>
    simp only [List.cons_append, splitCharAux, ih]
    by_cases h : x = sep <;> simp [h, ih]

/-- Splitting distributes over a separator occurrence. -/
theorem splitChar_append (sep : Char) (xs ys : List Char) :
    splitChar sep (xs ++ sep :: ys) = splitChar sep xs ++ splitChar sep ys := by
  simp [splitChar, splitCharAux_append]

/-- A separator-free string splits to the single piece equal to itself. -/
theorem splitChar_of_not_mem (sep : Char) (ys : List Char) (h : sep ∉ ys) :
    splitChar sep ys = [ys] := by
  suffices hs : splitCharAux sep ys = (ys, []) by simp [splitChar, hs]
  induction ys with
  | nil => rfl
  | cons c cs ih =>
    have hc : ¬ c = sep := fun hc => h (hc ▸ List.mem_cons_self c cs)
    have hcs : sep ∉ cs := fun hm => h (List.mem_cons_of_mem c hm)
    simp [splitCharAux, ih hcs, hc]

theorem getLastD_append_of_ne_nil {α : Type} (A B : List α) (d : α) (h : B ≠ []) :
    (A ++ B).getLastD d = B.getLastD d := by
  rw [List.getLastD_eq_getLast?, List.getLastD_eq_getLast?,
    List.getLast?_append_of_ne_nil A h]

/-- `url.split('/').pop()`: the trailing path segment of a URL, as used both
by `FileUpload.handleRemoveFile` and by the note page's `handleDelete`. -/
def lastSegment (s : String) : String := ⟨(splitChar '/' s.data).getLastD []⟩

/-- `file.name.split('.').pop()`: the text after the last dot of a file
name (the whole name when there is no dot), as used by `onDrop`. -/
def fileExt (s : String) : String := ⟨(splitChar '.' s.data).getLastD []⟩

/-- `` `${Math.random()}.${fileExt}` ``: the generated storage object name,
with the random part abstracted as `rand`. -/
def generatedName (rand orig : String) : String := rand ++ "." ++ fileExt orig

/-- `getPublicUrl(filePath)`: the public URL is the bucket base URL followed
by a slash and the object name. -/
def publicUrl (base name : String) : String := base ++ "/" ++ name

/-! ## File upload component (`FileUpload.tsx`) -/

/-- The metadata of a candidate file as seen by the dropzone and `onDrop`:
display name, byte size and MIME type. -/
structure FileMeta where
  name : String
  size : Nat
  mime : String
deriving DecidableEq

/-- `MAX_FILE_SIZE = 25 * 1024 * 1024` (25 MiB in bytes). -/
def MAX_FILE_SIZE : Nat := 25 * 1024 * 1024

/-- The MIME keys of `ALLOWED_FILE_TYPES`, except the `video/*` wildcard
which is handled separately. -/
def allowedMimes : List String :=
  ["application/pdf",
   "application/vnd.ms-powerpoint",
   "application/vnd.openxmlformats-officedocument.presentationml.presentation",
   "application/msword",
   "application/vnd.openxmlformats-officedocument.wordprocessingml.document"]

/-- The extension values of `ALLOWED_FILE_TYPES`. -/
def allowedExts : List String :=
  [".pdf", ".ppt", ".pptx", ".mp4", ".webm", ".doc", ".docx"]

/-- JavaScript `s.startsWith(p)` over character lists. -/
def strStarts (p s : String) : Bool := s.data.take p.data.length == p.data

/-- JavaScript `s.endsWith(e)` over character lists. -/
def strEnds (e s : String) : Bool :=
  decide (e.data.length ≤ s.data.length) &&
    s.data.drop (s.data.length - e.data.length) == e.data

/-- The dropzone type check (attr-accept over `ALLOWED_FILE_TYPES`): a file
matches when its MIME type is one of the keys, or matches the `video/*`
wildcard, or its name ends with one of the listed extensions. -/
def typeAllowed (f : FileMeta) : Bool :=
  allowedMimes.contains f.mime || strStarts "video/" f.mime ||
    allowedExts.any (fun e => strEnds e f.name)

/-- The dropzone acceptance predicate (`accept: ALLOWED_FILE_TYPES`,
`maxSize: MAX_FILE_SIZE`): type allowed and size within the ceiling. -/
def dropzoneAccept (f : FileMeta) : Bool :=
  typeAllowed f && decide (f.size ≤ MAX_FILE_SIZE)

/-- The size re-check inside `onDrop`: `file.size > MAX_FILE_SIZE` is
filtered out. -/
def sizeWithinLimit (f : FileMeta) : Bool := !(decide (f.size > MAX_FILE_SIZE))

/-- `validFiles = acceptedFiles.filter(...)` inside `onDrop`. -/
def validFiles (acceptedFiles : List FileMeta) : List FileMeta :=
  acceptedFiles.filter sizeWithinLimit

/-- The files for which an upload network call is issued for a raw batch:
the dropzone filters the batch, then `onDrop` size-filters the accepted
files, and `uploadPromises` maps over exactly the result. -/
def uploadedFiles (batch : List FileMeta) : List FileMeta :=
  validFiles (batch.filter dropzoneAccept)

/-- The settled results of `uploadPromises`/`Promise.all`: one entry per
valid file, in order; a job settles to `some url` on success and to `none`
when its caught failure makes it return `null`. The remote outcome of each
job is supplied by the `outcome` parameter. -/
def uploadBatch (outcome : FileMeta → Option String) (fs : List FileMeta) :
    List (Option String) :=
  fs.map outcome

/-- `validUrls = urls.filter(url => url !== null)`. -/
def validUrls (outcome : FileMeta → Option String) (fs : List FileMeta) :
    List String :=
  (uploadBatch outcome fs).filterMap id

/-- Result of a full `onDrop` run combined with the note page's
`handleUploadComplete` callback: whether `onUploadComplete` was invoked, and
the draft's attachment list afterwards. -/
structure DropResult where
  invoked : Bool
  attachments : List String
deriving DecidableEq

/-- `onDrop` composed with `handleUploadComplete`: size-filter the accepted
files; if none remain, stop without uploading; otherwise upload all and
invoke the completion callback only when at least one URL was produced, in
which case the callback appends the URLs to the draft's attachment list. -/
def onDropRun (outcome : FileMeta → Option String) (acceptedFiles : List FileMeta)
    (att : List String) : DropResult :=
  let vf := validFiles acceptedFiles
  if vf.isEmpty then ⟨false, att⟩
  else
    let vu := validUrls outcome vf
    if vu.isEmpty then ⟨false, att⟩ else ⟨true, att ++ vu⟩

/-- How the supabase storage `remove([fileName])` call can end: success, a
failure reported in the returned `error` field (the supabase convention,
checked e.g. by `handleDelete`'s `storageError`), or a thrown exception
(the case `handleRemoveFile`'s `try/catch` handles). -/
inductive RemoveOutcome
  | ok
  | errField
  | thrown
deriving DecidableEq

/-- Whether the remote removal actually succeeded. -/
def removeSucceeded : RemoveOutcome → Bool
  | .ok => true
  | _ => false

/-- `FileUpload.handleRemoveFile(url)` composed with the note page's
`onRemoveFile` callback: derives the object name, awaits the storage
removal without inspecting its returned `error` field, then filters `url`
out of the draft's attachment list; only a thrown exception reaches the
`catch`, which sets the error message and leaves the list alone. Returns
the draft's attachment list and the error message afterwards. -/
def handleRemoveFile (outcome : RemoveOutcome) (attachments : List String)
    (url : String) : List String × Option String :=
  match outcome with
  | .thrown => (attachments, some "Failed to remove file. Please try again.")
  | _ => (attachments.filter (fun u => !(u == url)), none)

/-! ## Note page persistence (`NotePage` in `Dashboard.tsx`) -/

/-- JavaScript `String.prototype.trim` whitespace (the characters relevant
here): space, tab, line feed, carriage return, vertical tab, form feed and
no-break space. -/
def isJsWhitespace (c : Char) : Bool :=
  c == ' ' || c == '\t' || c == '\n' || c == '\r' || c == '\x0b' ||
    c == '\x0c' || c == '\u00A0'

/-- JavaScript `s.trim()`: strip leading and trailing whitespace. -/
def jsTrim (s : String) : String :=
  ⟨(((s.data.dropWhile isJsWhitespace).reverse.dropWhile isJsWhitespace).reverse)⟩

/-- A persisted `notes` row (the `noteData` payload shape). -/
structure NoteRecord where
  title : String
  content : String
  category : String
  tags : List String
  attachments : List String
  userId : String
deriving DecidableEq

/-- The in-memory draft of the note page (the `Note` interface, with the
route identifier carried separately). -/
structure NoteDraft where
  id : String
  title : String
  content : String
  category : String
  tags : List String
  attachments : List String
deriving DecidableEq

/-- The remote `notes` table: rows keyed by identifier. -/
abbrev Store := List (String × NoteRecord)

/-- `supabase.from('notes').select('*').eq('id', id).single()`:
the first row whose key matches. -/
def loadNote (store : Store) (id : String) : Option NoteRecord :=
  (store.find? (fun p => p.1 == id)).map (fun p => p.2)

/-- The `noteData` payload built by `handleSave`: trimmed title and
category, current content, tags and attachments, stamped with the session
user. -/
def noteData (n : NoteDraft) (uid : String) : NoteRecord :=
  { title := jsTrim n.title
    content := n.content
    category := jsTrim n.category
    tags := n.tags
    attachments := n.attachments
    userId := uid }

/-- A remote call issued by `handleSave`. -/
inductive StoreCall
  | insertNote (payload : NoteRecord)
  | updateNote (id : String) (payload : NoteRecord)
deriving DecidableEq

/-- Effect of a successful store call on the table; an insert keys the new
row by the store-assigned fresh identifier `newId`. -/
def applyCall (newId : String) (store : Store) : StoreCall → Store
  | .insertNote p => (newId, p) :: store
  | .updateNote id p => store.map (fun q => if q.1 == id then (q.1, p) else q)

/-- The note page's state touched by `handleSave`: the draft, the `saving`
flag and the error message. -/
structure SaveState where
  note : Option NoteDraft
  saving : Bool
  errorMsg : Option String
deriving DecidableEq

/-- Result of a `handleSave` run: the page state, the remote table and the
list of store calls issued. -/
structure SaveOutcome where
  state : SaveState
  store : Store
  calls : List StoreCall
deriving DecidableEq

/-- `handleSave`: bail out (issuing nothing, changing nothing) when no
draft or no session; otherwise build `noteData` and issue one insert when
the route identifier is the sentinel `new`, one update otherwise. On
failure the draft is untouched and the error message is set; on success
the error stays cleared and the call's effect is applied to the table. The
`saving` flag ends `false` either way (`finally`). -/
def handleSave (st : SaveState) (id : String) (session : Option String)
    (storeFails : Bool) (newId : String) (store : Store) : SaveOutcome :=
  match st.note, session with
  | some n, some uid =>
    let payload := noteData n uid
    let call := if id == "new" then StoreCall.insertNote payload
      else StoreCall.updateNote id payload
    if storeFails then
      ⟨{ st with saving := false
                 errorMsg := some "Failed to save note. Please try again." },
        store, [call]⟩
    else
      ⟨{ st with saving := false, errorMsg := none },
        applyCall newId store call, [call]⟩
  | _, _ => ⟨st, store, []⟩

/-- A remote call issued by `handleDelete`. -/
inductive DelCall
  | removeStorage (names : List String)
  | deleteRecord (id : String)
deriving DecidableEq

/-- Result of a `handleDelete` run: the remote table, the error message and
the list of remote calls issued, in order. -/
structure DeleteOutcome where
  store : Store
  errorMsg : Option String
  calls : List DelCall
deriving DecidableEq

/-- `handleDelete`: behind the confirmation gate, first remove all current
attachments from storage in one batched call (object names derived from the
URLs' trailing segments); a failure reported by that call (`storageError`)
is thrown, reaching the `catch` before the record deletion is ever issued.
Only then delete the `notes` row; a failure there also leaves the table
as it was. -/
def handleDelete (confirmed : Bool) (note : Option NoteDraft) (id : String)
    (removeFails deleteFails : Bool) (store : Store) : DeleteOutcome :=
  if confirmed then
    let atts := (note.map NoteDraft.attachments).getD []
    if atts.length > 0 then
      let names := atts.map lastSegment
      if removeFails then
        ⟨store, some "Failed to delete note. Please try again.",
          [DelCall.removeStorage names]⟩
      else if deleteFails then
        ⟨store, some "Failed to delete note. Please try again.",
          [DelCall.removeStorage names, DelCall.deleteRecord id]⟩
      else
        ⟨store.filter (fun q => !(q.1 == id)), none,
          [DelCall.removeStorage names, DelCall.deleteRecord id]⟩
    else if deleteFails then
      ⟨store, some "Failed to delete note. Please try again.",
        [DelCall.deleteRecord id]⟩
    else
      ⟨store.filter (fun q => !(q.1 == id)), none, [DelCall.deleteRecord id]⟩
  else ⟨store, none, []⟩

/-! ## Helper lemmas -/

theorem length_filterMap_id_add (l : List (Option String)) :
    (l.filterMap id).length + (l.filter Option.isNone).length = l.length := by
  induction l with
  | nil => rfl
  | cons o l ih =>
    cases o <;>
      simp [List.filterMap_cons, List.filter_cons, Option.isNone] <;> omega

theorem validUrls_length_add (outcome : FileMeta → Option String)
    (fs : List FileMeta) :
    (validUrls outcome fs).length
        + (fs.filter (fun f => (outcome f).isNone)).length
      = fs.length := by
  have h2 : ((fs.map outcome).filter Option.isNone).length
      = (fs.filter (fun f => (outcome f).isNone)).length := by
    rw [List.filter_map, List.length_map]
    rfl
  have h3 := length_filterMap_id_add (fs.map outcome)
  have h4 : (fs.map outcome).length = fs.length := by simp
  simp only [validUrls, uploadBatch]
  omega

theorem loadNote_filter_ne (store : Store) (id : String) :
    loadNote (store.filter (fun q => !(q.1 == id))) id = none := by
  induction store with
  | nil => rfl
  | cons q rest ih =>
    cases h : (q.1 == id) with
    | true => simpa [List.filter_cons, h] using ih
    | false =>
      simp only [List.filter_cons, h, Bool.not_false, if_pos]
      simpa [loadNote, List.find?_cons, h] using ih

theorem loadNote_update (store : Store) (id : String) (p : NoteRecord)
    (h : (loadNote store id).isSome) :
    loadNote (store.map (fun q => if q.1 == id then (q.1, p) else q)) id
      = some p := by
  induction store with
  | nil => simp [loadNote] at h
  | cons q rest ih =>
    rw [List.map_cons]
    by_cases hq : (q.1 == id) = true
    · rw [if_pos hq]
      simp [loadNote, List.find?, hq]
    · rw [if_neg hq]
      have hqb : (q.1 == id) = false := by simpa using hq
      have h' : (loadNote rest id).isSome := by
        simpa [loadNote, List.find?, hqb] using h
      have hrest := ih h'
      simpa [loadNote, List.find?, hqb] using hrest

theorem getLastD_mem_of_ne_nil {α : Type} (l : List α) (d : α) (h : l ≠ []) :
    l.getLastD d ∈ l := by
  cases l with
  | nil => exact absurd rfl h
  | cons a t =>
    rw [List.getLastD_cons]
    exact List.getLastD_mem_cons t a

theorem fileExt_no_dot (s : String) : '.' ∉ (fileExt s).data :=
  splitChar_not_mem '.' s.data ((splitChar '.' s.data).getLastD [])
    (getLastD_mem_of_ne_nil (splitChar '.' s.data) []
      (splitChar_ne_nil '.' s.data))

theorem fileExt_chars_subset (s : String) :
    ∀ c ∈ (fileExt s).data, c ∈ s.data :=
  splitChar_subset '.' s.data ((splitChar '.' s.data).getLastD [])
    (getLastD_mem_of_ne_nil (splitChar '.' s.data) []
      (splitChar_ne_nil '.' s.data))

/-! ## Claim theorems -/

/-- Claim C1 is false on the code: when the storage removal fails by
returning an error in the result's `error` field (the supabase convention,
the same field `handleDelete` checks), `FileUpload.handleRemoveFile` does
not inspect it and still invokes `onRemoveFile`, so the url is removed from
the draft's attachment list even though the remote removal failed. Concrete
counterexample: one attachment, removal fails via the error field, and the
draft list changes. -/
theorem removeAttachment_failure_claim_counterexample :
    removeSucceeded RemoveOutcome.errField = false ∧
    (handleRemoveFile RemoveOutcome.errField ["https://h/b/f.pdf"]
        "https://h/b/f.pdf").1 ≠ ["https://h/b/f.pdf"] ∧
    "https://h/b/f.pdf" ∉
      (handleRemoveFile RemoveOutcome.errField ["https://h/b/f.pdf"]
        "https://h/b/f.pdf").1 := by
  decide

/-- Claim C1, amended: `removeAttachment(url)` updates the draft list
whenever the removal call does not throw — including when the removal
fails with an in-band error result, which the code ignores; only a thrown
failure leaves the draft list unchanged (with an error message surfaced).
On the non-thrown paths the url is absent from the draft list afterwards. -/
theorem removeAttachment_updates_unless_thrown (outcome : RemoveOutcome)
    (atts : List String) (url : String) :
    (outcome = RemoveOutcome.thrown →
      handleRemoveFile outcome atts url
        = (atts, some "Failed to remove file. Please try again.")) ∧
    (outcome ≠ RemoveOutcome.thrown →
      (handleRemoveFile outcome atts url).1
          = atts.filter (fun u => !(u == url)) ∧
        url ∉ (handleRemoveFile outcome atts url).1) := by
  cases outcome <;> simp [handleRemoveFile, List.mem_filter]

theorem removeAttachment_updates_unless_thrown_witness :
    handleRemoveFile RemoveOutcome.thrown ["u"] "u"
        = (["u"], some "Failed to remove file. Please try again.") ∧
    (handleRemoveFile RemoveOutcome.ok ["u", "v"] "u").1 = ["v"] := by
  refine ⟨(removeAttachment_updates_unless_thrown RemoveOutcome.thrown ["u"] "u").1 rfl, ?_⟩
  have h := (removeAttachment_updates_unless_thrown RemoveOutcome.ok ["u", "v"] "u").2
    (by decide)
  rw [h.1]
  decide

/-- Claim C2: behind the confirmation gate, for a non-new note with a
non-empty attachment list, `handleDelete` issues the batched attachment
removal first; if it fails the record-deletion call is never issued and the
table is unchanged (so the note record stays retrievable and unchanged);
the removal precedes the record deletion when it succeeds, the table is
unchanged unless both calls succeed, and when both succeed the record is
gone. -/
theorem delete_aborts_on_attachment_removal_failure (note : NoteDraft)
    (id : String) (removeFails deleteFails : Bool) (store : Store)
    (hatt : note.attachments ≠ []) :
    (removeFails = true →
      (handleDelete true (some note) id removeFails deleteFails store).calls
          = [DelCall.removeStorage (note.attachments.map lastSegment)] ∧
        (handleDelete true (some note) id removeFails deleteFails store).store
          = store) ∧
    (removeFails = false →
      (handleDelete true (some note) id removeFails deleteFails store).calls
        = [DelCall.removeStorage (note.attachments.map lastSegment),
            DelCall.deleteRecord id]) ∧
    ((removeFails = true ∨ deleteFails = true) →
      (handleDelete true (some note) id removeFails deleteFails store).store
        = store) ∧
    (removeFails = false → deleteFails = false →
      loadNote
          (handleDelete true (some note) id removeFails deleteFails store).store
          id
        = none) := by
  have hpos : 0 < note.attachments.length := List.length_pos.mpr hatt
  cases removeFails <;> cases deleteFails <;>
    simp [handleDelete, hpos, loadNote_filter_ne]

theorem delete_aborts_on_attachment_removal_failure_witness :
    (handleDelete true (some ⟨"n1", "t", "c", "g", [], ["https://h/b/f.pdf"]⟩)
        "n1" true false [("n1", ⟨"t", "c", "g", [], ["https://h/b/f.pdf"], "u"⟩)]).store
      = [("n1", ⟨"t", "c", "g", [], ["https://h/b/f.pdf"], "u"⟩)] :=
  (delete_aborts_on_attachment_removal_failure
    ⟨"n1", "t", "c", "g", [], ["https://h/b/f.pdf"]⟩ "n1" true false
    [("n1", ⟨"t", "c", "g", [], ["https://h/b/f.pdf"], "u"⟩)] (by decide)).1 rfl |>.2

/-- Claim C3 is false on the code: `handleSave` persists the title and
category whitespace-trimmed, so for a draft whose title carries surrounding
whitespace (while its trimmed title and category are non-empty) the note
returned by a subsequent load differs from the draft in the title field. -/
theorem save_load_roundtrip_counterexample :
    jsTrim (NoteDraft.title ⟨"n1", " a ", "c", "b", [], []⟩) ≠ "" ∧
    jsTrim (NoteDraft.category ⟨"n1", " a ", "c", "b", [], []⟩) ≠ "" ∧
    ((loadNote
          (handleSave ⟨some ⟨"n1", " a ", "c", "b", [], []⟩, false, none⟩ "n1"
            (some "u") false "fresh"
            [("n1", ⟨"a", "c", "b", [], [], "u"⟩)]).store "n1").map
        NoteRecord.title)
      ≠ some (NoteDraft.title ⟨"n1", " a ", "c", "b", [], []⟩) := by
  decide

/-- Claim C3, amended: for every draft whose trimmed title and trimmed
category are non-empty, save followed by load of the same note returns a
note whose content, tags and attachments equal the draft's and whose title
and category equal the draft's whitespace-trimmed (so equality with the
draft's own fields holds exactly when title and category carry no
surrounding whitespace). -/
theorem save_load_roundtrip_trimmed (st : SaveState) (n : NoteDraft)
    (uid id newId : String) (store : Store)
    (h : st.note = some n) (ht : jsTrim n.title ≠ "") (hc : jsTrim n.category ≠ "")
    (hex : id = "new" ∨ (loadNote store id).isSome) :
    loadNote (handleSave st id (some uid) false newId store).store
        (if id = "new" then newId else id)
      = some { title := jsTrim n.title, content := n.content,
               category := jsTrim n.category, tags := n.tags,
               attachments := n.attachments, userId := uid } := by
  by_cases hid : id = "new"
  · simp [handleSave, h, hid, applyCall, loadNote, List.find?_cons, noteData]
  · have hsome : (loadNote store id).isSome := hex.resolve_left hid
    have hbeq : (id == "new") = false := by
      simpa using hid
    simp only [handleSave, h, hbeq, if_neg hid, if_false, Bool.false_eq_true,
      ite_false, applyCall, noteData]
    exact loadNote_update store id _ hsome

theorem save_load_roundtrip_trimmed_witness :
    loadNote
        (handleSave ⟨some ⟨"new", " Midterm Review ", "notes", "Biology", [], ["https://h/b/0.5.pdf"]⟩,
            false, none⟩ "new" (some "u") false "fresh" []).store "fresh"
      = some ⟨"Midterm Review", "notes", "Biology", [], ["https://h/b/0.5.pdf"], "u"⟩ := by
  have h := save_load_roundtrip_trimmed
    ⟨some ⟨"new", " Midterm Review ", "notes", "Biology", [], ["https://h/b/0.5.pdf"]⟩, false, none⟩
    ⟨"new", " Midterm Review ", "notes", "Biology", [], ["https://h/b/0.5.pdf"]⟩
    "u" "new" "fresh" [] rfl (by decide) (by decide) (Or.inl rfl)
  simpa using h

/-- Claim C4: the settled upload batch has one entry per valid file (the
call resolves only once every job has settled), the successful URLs number
exactly N - M where M is the number of failing jobs, the failure entries
number exactly M, and every job's own outcome appears in the settled list —
no sibling failure aborts or suppresses it. -/
theorem upload_batch_settles_individually (outcome : FileMeta → Option String)
    (fs : List FileMeta) :
    (uploadBatch outcome fs).length = fs.length ∧
    (validUrls outcome fs).length
      = fs.length - (fs.filter (fun f => (outcome f).isNone)).length ∧
    ((uploadBatch outcome fs).filter Option.isNone).length
      = (fs.filter (fun f => (outcome f).isNone)).length ∧
    ∀ f ∈ fs, outcome f ∈ uploadBatch outcome fs := by
  refine ⟨by simp [uploadBatch], ?_, ?_, ?_⟩
  · have := validUrls_length_add outcome fs
    omega
  · simp [uploadBatch, List.filter_map]
    rfl
  · intro f hf
    exact List.mem_map_of_mem outcome hf

theorem upload_batch_settles_individually_witness :
    (uploadBatch
        (fun f => if f.name == "bad.pdf" then none else some "https://h/b/x.pdf")
        [⟨"good.pdf", 1, "application/pdf"⟩, ⟨"bad.pdf", 1, "application/pdf"⟩]).length
      = 2 ∧
    (validUrls
        (fun f => if f.name == "bad.pdf" then none else some "https://h/b/x.pdf")
        [⟨"good.pdf", 1, "application/pdf"⟩, ⟨"bad.pdf", 1, "application/pdf"⟩]).length
      = 1 := by
  have h := upload_batch_settles_individually
    (fun f => if f.name == "bad.pdf" then none else some "https://h/b/x.pdf")
    [⟨"good.pdf", 1, "application/pdf"⟩, ⟨"bad.pdf", 1, "application/pdf"⟩]
  refine ⟨h.1, ?_⟩
  rw [h.2.1]
  decide

/-- Claim C5: `handleSave` issues exactly one store call whose payload has
the draft's title and category whitespace-trimmed and the draft's content,
tags and attachments unmodified, stamped with the session user; the call is
an insert exactly when the route identifier is the sentinel `new` and an
update otherwise — whether or not the call then fails. -/
theorem save_payload_and_dispatch (st : SaveState) (n : NoteDraft)
    (uid id newId : String) (storeFails : Bool) (store : Store)
    (h : st.note = some n) :
    (handleSave st id (some uid) storeFails newId store).calls
      = [if id = "new"
          then StoreCall.insertNote
            ⟨jsTrim n.title, n.content, jsTrim n.category, n.tags,
              n.attachments, uid⟩
          else StoreCall.updateNote id
            ⟨jsTrim n.title, n.content, jsTrim n.category, n.tags,
              n.attachments, uid⟩] := by
  cases storeFails <;> by_cases hid : id = "new" <;>
    simp [handleSave, h, hid, noteData]

theorem save_payload_and_dispatch_witness :
    (handleSave ⟨some ⟨"new", " t ", "c", " g ", ["x"], ["u1"]⟩, false, none⟩
        "new" (some "uid") false "fresh" []).calls
      = [StoreCall.insertNote ⟨"t", "c", "g", ["x"], ["u1"], "uid"⟩] := by
  have h := save_payload_and_dispatch
    ⟨some ⟨"new", " t ", "c", " g ", ["x"], ["u1"]⟩, false, none⟩
    ⟨"new", " t ", "c", " g ", ["x"], ["u1"]⟩ "uid" "new" "fresh" false [] rfl
  rw [h]
  decide

/-- Claim C6: when the store call made by `handleSave` fails, the in-memory
draft is exactly as before, the fixed error message is surfaced, the remote
table is unchanged, and exactly one store call was issued (no automatic
retry). -/
theorem save_failure_preserves_draft (st : SaveState) (n : NoteDraft)
    (uid id newId : String) (store : Store) (h : st.note = some n) :
    (handleSave st id (some uid) true newId store).state.note = st.note ∧
    (handleSave st id (some uid) true newId store).state.errorMsg
      = some "Failed to save note. Please try again." ∧
    (handleSave st id (some uid) true newId store).store = store ∧
    (handleSave st id (some uid) true newId store).calls.length = 1 := by
  simp [handleSave, h]

theorem save_failure_preserves_draft_witness :
    (handleSave ⟨some ⟨"n1", "t", "c", "g", [], []⟩, false, none⟩ "n1"
        (some "u") true "fresh" []).state.note
      = some ⟨"n1", "t", "c", "g", [], []⟩ :=
  (save_failure_preserves_draft
    ⟨some ⟨"n1", "t", "c", "g", [], []⟩, false, none⟩
    ⟨"n1", "t", "c", "g", [], []⟩ "u" "n1" "fresh" [] rfl).1

/-- Claim C7: the pipeline rejects a file exactly when its size exceeds
25 MiB or its type matches none of the allowed MIME types, the `video/*`
wildcard, or the allowed extensions; an upload call is issued for a file of
a batch exactly when the file passes both checks — so a rejected file is
never uploaded, and the criterion is per-file, independent of the other
files in the batch. -/
theorem validate_rejects_exactly_size_or_type (f : FileMeta)
    (batch : List FileMeta) :
    (dropzoneAccept f = false ↔
      f.size > MAX_FILE_SIZE ∨ typeAllowed f = false) ∧
    (f ∈ uploadedFiles batch ↔
      f ∈ batch ∧ f.size ≤ MAX_FILE_SIZE ∧ typeAllowed f = true) := by
  constructor
  · rw [dropzoneAccept]
    cases hT : typeAllowed f <;> by_cases hs : f.size ≤ MAX_FILE_SIZE <;>
      simp [hT, hs, Nat.not_le, Nat.not_lt] <;> omega
  · simp [uploadedFiles, validFiles, sizeWithinLimit, dropzoneAccept,
      List.mem_filter, Nat.not_lt]
    tauto

theorem validate_rejects_exactly_size_or_type_witness :
    dropzoneAccept ⟨"big.pdf", 26214401, "application/pdf"⟩ = false ∧
    (⟨"ok.pdf", 1, "application/pdf"⟩ : FileMeta) ∈
      uploadedFiles
        [⟨"ok.pdf", 1, "application/pdf"⟩, ⟨"virus.exe", 1, "application/exe"⟩] := by
  constructor
  · exact (validate_rejects_exactly_size_or_type
      ⟨"big.pdf", 26214401, "application/pdf"⟩ []).1.mpr (Or.inl (by decide))
  · exact (validate_rejects_exactly_size_or_type ⟨"ok.pdf", 1, "application/pdf"⟩
      [⟨"ok.pdf", 1, "application/pdf"⟩, ⟨"virus.exe", 1, "application/exe"⟩]).2.mpr
      ⟨by decide, by decide, by decide⟩

/-- Claim C8: the generated storage object name ends in the original file
name's extension (the text after its last dot), and deriving the object
name back from the public URL's trailing path segment — as attachment
removal and cascading delete do — returns exactly the generated name, for
any slash-free random part and original file name. -/
theorem storage_name_roundtrip (rand orig base : String)
    (hr : '/' ∉ rand.data) (ho : '/' ∉ orig.data) :
    fileExt (generatedName rand orig) = fileExt orig ∧
    lastSegment (publicUrl base (generatedName rand orig))
      = generatedName rand orig := by
  have hgen : (generatedName rand orig).data
      = rand.data ++ '.' :: (fileExt orig).data := by
    simp [generatedName]
  constructor
  · have hnd : '.' ∉ (fileExt orig).data := fileExt_no_dot orig
    show (⟨(splitChar '.' (generatedName rand orig).data).getLastD []⟩ : String)
      = fileExt orig
    rw [hgen, splitChar_append, splitChar_of_not_mem '.' _ hnd,
      getLastD_append_of_ne_nil _ _ _ (by simp)]
    rfl
  · have hslash : '/' ∉ (generatedName rand orig).data := by
      rw [hgen]
      intro hmem
      rcases List.mem_append.mp hmem with hm | hm
      · exact hr hm
      · rcases List.mem_cons.mp hm with hm | hm
        · exact absurd hm (by decide)
        · exact ho (fileExt_chars_subset orig _ hm)
    have hdata : (publicUrl base (generatedName rand orig)).data
        = base.data ++ '/' :: (generatedName rand orig).data := by
      simp [publicUrl]
    show (⟨(splitChar '/' (publicUrl base (generatedName rand orig)).data).getLastD []⟩ : String)
      = generatedName rand orig
    rw [hdata, splitChar_append, splitChar_of_not_mem '/' _ hslash,
      getLastD_append_of_ne_nil _ _ _ (by simp)]
    rfl

theorem storage_name_roundtrip_witness :
    fileExt (generatedName "0.123" "exam.pdf") = fileExt "exam.pdf" ∧
    lastSegment
        (publicUrl "https://h/storage/v1/object/public/notes-attachments"
          (generatedName "0.123" "exam.pdf"))
      = generatedName "0.123" "exam.pdf" :=
  storage_name_roundtrip "0.123" "exam.pdf"
    "https://h/storage/v1/object/public/notes-attachments"
    (by decide) (by decide)

/-- Claim C9: the completion callback is invoked exactly when the batch
produced at least one successful URL; when it is not invoked — all files
rejected by validation or all upload jobs failed — the draft's attachment
list is unchanged. -/
theorem upload_callback_only_on_success (outcome : FileMeta → Option String)
    (acceptedFiles : List FileMeta) (att : List String) :
    ((onDropRun outcome acceptedFiles att).invoked = true ↔
      validUrls outcome (validFiles acceptedFiles) ≠ []) ∧
    ((onDropRun outcome acceptedFiles att).invoked = false →
      (onDropRun outcome acceptedFiles att).attachments = att) := by
  unfold onDropRun
  by_cases h1 : (validFiles acceptedFiles).isEmpty
  · have he : validFiles acceptedFiles = [] := by
      simpa [List.isEmpty_iff] using h1
    simp [h1, he, validUrls, uploadBatch]
  · by_cases h2 : (validUrls outcome (validFiles acceptedFiles)).isEmpty
    · have he : validUrls outcome (validFiles acceptedFiles) = [] := by
        simpa [List.isEmpty_iff] using h2
      simp [h1, h2, he]
    · have hne : validUrls outcome (validFiles acceptedFiles) ≠ [] := by
        simpa [List.isEmpty_iff] using h2
      simp [h1, h2, hne]

theorem upload_callback_only_on_success_witness :
    (onDropRun (fun _ => none) [⟨"a.pdf", 1, "application/pdf"⟩] ["keep"]).invoked
      = false ∧
    (onDropRun (fun _ => none) [⟨"a.pdf", 1, "application/pdf"⟩] ["keep"]).attachments
      = ["keep"] := by
  refine ⟨by decide, ?_⟩
  exact (upload_callback_only_on_success (fun _ => none)
    [⟨"a.pdf", 1, "application/pdf"⟩] ["keep"]).2 (by decide)

/-- Claim C10: when no draft is loaded or no authenticated session is
present, `handleSave` issues no remote call and leaves the page state and
the remote table exactly unchanged. -/
theorem save_noop_without_draft_or_session (st : SaveState) (id newId : String)
    (session : Option String) (storeFails : Bool) (store : Store)
    (h : st.note = none ∨ session = none) :
    handleSave st id session storeFails newId store = ⟨st, store, []⟩ := by
  cases hn : st.note with
  | none => cases session <;> simp [handleSave, hn]
  | some n =>
    cases hs : session with
    | none => simp [handleSave, hn, hs]
    | some uid =>
      rcases h with h | h
      · rw [hn] at h; exact absurd h (by simp)
      · rw [hs] at h; exact absurd h (by simp)

theorem save_noop_without_draft_or_session_witness :
    handleSave ⟨none, false, none⟩ "n1" (some "u") false "fresh" []
      = ⟨⟨none, false, none⟩, [], []⟩ :=
  save_noop_without_draft_or_session ⟨none, false, none⟩ "n1" "fresh"
    (some "u") false [] (Or.inl rfl)

end NotesApp
